import Mathlib

/-!
Verification of the AI-KYC Application Processing Pipeline & Risk Decision
Engine against its specification.  The frontend TypeScript under
`frontend/` is embedded directly; the backend pipeline, scoring engine and
finalize endpoints are not part of the source snapshot (only their
documentation and callers are), so those are modelled from the spec, as
marked on each definition.
-/

namespace AIKYC

/-- The three-valued decision bucket (`approved | review | rejected`),
from `frontend/types/index.ts` (`RiskScore.decision`). -/
inductive Decision where
  | approved
  | review
  | rejected
deriving DecidableEq, Repr

/-- Modelled from the spec: the backend Risk Scoring Engine decision
thresholds (spec §4.2, backend code missing from the snapshot; also
documented in README.md "Decision Thresholds" and the workflow guide
"Quick Reference: Decision Values").  Inclusive lower bound:
score in [0,30] is approved, (30,60] is review, (60,100] is rejected. -/
def decisionFor (s : ℚ) : Decision :=
  if s ≤ 30 then .approved
  else if s ≤ 60 then .review
  else .rejected

/-- C1: for every risk score s in [0,100] the decision bucket is determined
with inclusive lower bounds — approved iff 0 ≤ s ≤ 30, review iff
30 < s ≤ 60, rejected iff 60 < s ≤ 100 — and exactly one of the three
decisions is produced. -/
theorem decision_buckets (s : ℚ) (h0 : 0 ≤ s) (h100 : s ≤ 100) :
    (decisionFor s = .approved ↔ (0 ≤ s ∧ s ≤ 30))
    ∧ (decisionFor s = .review ↔ (30 < s ∧ s ≤ 60))
    ∧ (decisionFor s = .rejected ↔ (60 < s ∧ s ≤ 100)) := by
  unfold decisionFor
  split_ifs with h1 h2
  · exact ⟨⟨fun _ => ⟨h0, h1⟩, fun _ => rfl⟩,
      ⟨fun hr => (nomatch hr), fun hc => absurd h1 (by linarith [hc.1])⟩,
      ⟨fun hr => (nomatch hr), fun hc => absurd h1 (by linarith [hc.1])⟩⟩
  · push_neg at h1
    exact ⟨⟨fun hr => (nomatch hr), fun hc => absurd h1 (by linarith [hc.2])⟩,
      ⟨fun _ => ⟨h1, h2⟩, fun _ => rfl⟩,
      ⟨fun hr => (nomatch hr), fun hc => absurd h2 (by linarith [hc.1])⟩⟩
  · push_neg at h1 h2
    exact ⟨⟨fun hr => (nomatch hr), fun hc => absurd h2 (by linarith [hc.2])⟩,
      ⟨fun hr => (nomatch hr), fun hc => absurd h2 (by linarith [hc.2])⟩,
      ⟨fun _ => ⟨h2, h100⟩, fun _ => rfl⟩⟩

/-- Witness for C1 at the concrete score 45. -/
theorem decision_buckets_witness :
    (0:ℚ) ≤ 45 ∧ (45:ℚ) ≤ 100 ∧ decisionFor 45 = .review :=
  ⟨by norm_num, by norm_num,
    ((decision_buckets 45 (by norm_num) (by norm_num)).2.1).mpr (by norm_num)⟩

/-- Modelled from the spec: the six configured factor weights of the Risk
Scoring Engine (spec §4.2 table; README.md "Risk Scoring"): name mismatch
0.25, DOB mismatch 0.20, address mismatch 0.15, low OCR confidence 0.20,
missing required documents 0.20, fraud signal 0.30.  The backend engine
code is missing from the snapshot. -/
def configuredWeights : List ℚ :=
  [25/100, 20/100, 15/100, 20/100, 20/100, 30/100]

/-- Modelled from the spec: pairing each configured weight with the
sub-score of its factor when the factor is applicable (`none` marks an
inapplicable factor, which is dropped together with its weight). -/
def appliedFactors (subs : List (Option ℚ)) : List (ℚ × ℚ) :=
  (configuredWeights.zip subs).filterMap fun p => p.2.map fun q => (p.1, q)

/-- Sum of the weights actually applied. -/
def weightSum (l : List (ℚ × ℚ)) : ℚ := (l.map Prod.fst).sum

/-- Weighted sum of the applied sub-scores. -/
def weightedSum (l : List (ℚ × ℚ)) : ℚ := (l.map fun p => p.1 * p.2).sum

/-- Rounding to one decimal place. -/
def round1 (q : ℚ) : ℚ := (round (10 * q) : ℤ) / 10

/-- Modelled from the spec: total risk score (spec §4.2) — weighted sum
divided by the sum of the weights actually applied (re-normalization),
rounded to one decimal place and clamped to [0,100].  A zero weight sum
(no applicable factor) yields 0. -/
def totalScore (subs : List (Option ℚ)) : ℚ :=
  let l := appliedFactors subs
  let raw := if weightSum l = 0 then 0 else weightedSum l / weightSum l
  min (max (round1 raw) 0) 100

/-- Each weight is nonnegative and each applied sub-score keeps the bound
assumed of all sub-scores. -/
theorem appliedFactors_bounds (subs : List (Option ℚ))
    (h : ∀ o ∈ subs, ∀ q, o = some q → 0 ≤ q ∧ q ≤ 100) :
    ∀ p ∈ appliedFactors subs, 0 ≤ p.1 ∧ 0 ≤ p.2 ∧ p.2 ≤ 100 := by
  intro p hp
  unfold appliedFactors at hp
  rcases List.mem_filterMap.mp hp with ⟨⟨w, o⟩, hmem, hmap⟩
  rcases o with _ | q
  · simp at hmap
  · simp only [Option.map_some] at hmap
    cases hmap
    have hw : w ∈ configuredWeights := (List.of_mem_zip hmem).1
    have ho : some q ∈ subs := (List.of_mem_zip hmem).2
    have hq := h (some q) ho q rfl
    refine ⟨?_, hq.1, hq.2⟩
    simp only [configuredWeights, List.mem_cons, List.not_mem_nil, or_false] at hw
    rcases hw with h1 | h1 | h1 | h1 | h1 | h1 <;> rw [h1] <;> norm_num

/-- The weighted sum of factors with sub-scores in [0,100] lies between 0
and 100 times the weight sum. -/
theorem weightedSum_le (l : List (ℚ × ℚ))
    (h : ∀ p ∈ l, 0 ≤ p.1 ∧ 0 ≤ p.2 ∧ p.2 ≤ 100) :
    0 ≤ weightSum l ∧ 0 ≤ weightedSum l ∧ weightedSum l ≤ 100 * weightSum l := by
  induction l with
  | nil => simp [weightSum, weightedSum]
  | cons p t ih =>
    have hp := h p (List.mem_cons_self p t)
    have ht := ih fun q hq => h q (List.mem_cons_of_mem p hq)
    have h1 : p.1 * p.2 ≤ p.1 * 100 := by nlinarith [hp.1, hp.2.2]
    have h2 : 0 ≤ p.1 * p.2 := mul_nonneg hp.1 hp.2.1
    simp only [weightSum, weightedSum, List.map_cons, List.sum_cons] at ht ⊢
    refine ⟨by linarith [hp.1, ht.1], by linarith [ht.2.1], by linarith [ht.2.2]⟩

/-- Rounding to one decimal place keeps a value of [0,100] inside [0,100]. -/
theorem round1_mem (q : ℚ) (h0 : 0 ≤ q) (h100 : q ≤ 100) :
    0 ≤ round1 q ∧ round1 q ≤ 100 := by
  have hr : round (10 * q) = ⌊10 * q + 1 / 2⌋ := round_eq (10 * q)
  have hlow : (0 : ℤ) ≤ ⌊10 * q + 1 / 2⌋ := by
    rw [Int.le_floor]
    push_cast
    linarith
  have hup : ⌊10 * q + 1 / 2⌋ ≤ 1000 := by
    have hfl : (⌊10 * q + 1 / 2⌋ : ℚ) ≤ 10 * q + 1 / 2 := Int.floor_le _
    by_contra hgt
    push_neg at hgt
    have : ((1001 : ℤ) : ℚ) ≤ (⌊10 * q + 1 / 2⌋ : ℚ) := by
      exact_mod_cast hgt
    linarith
  constructor
  · unfold round1
    rw [hr]
    positivity
  · unfold round1
    rw [hr]
    rw [div_le_iff₀ (by norm_num : (0:ℚ) < 10)]
    calc ((⌊10 * q + 1 / 2⌋ : ℤ) : ℚ) ≤ ((1000 : ℤ) : ℚ) := by exact_mod_cast hup
    _ = 100 * 10 := by norm_num

/-- C2: the configured weights sum to 1.30, yet for sub-scores in [0,100]
the re-normalized total score lies in [0,100] before any clamping (the
clamp is a no-op) and is rounded to one decimal place. -/
theorem totalScore_renormalized (subs : List (Option ℚ))
    (h : ∀ o ∈ subs, ∀ q, o = some q → 0 ≤ q ∧ q ≤ 100) :
    configuredWeights.sum = 13 / 10
    ∧ 0 ≤ totalScore subs ∧ totalScore subs ≤ 100
    ∧ totalScore subs
        = round1 (if weightSum (appliedFactors subs) = 0 then 0
            else weightedSum (appliedFactors subs) / weightSum (appliedFactors subs))
    ∧ ∃ n : ℤ, totalScore subs = n / 10 := by
  have hb := appliedFactors_bounds subs h
  have hs := weightedSum_le (appliedFactors subs) hb
  set l := appliedFactors subs with hl
  have hraw : 0 ≤ (if weightSum l = 0 then 0 else weightedSum l / weightSum l)
      ∧ (if weightSum l = 0 then 0 else weightedSum l / weightSum l) ≤ 100 := by
    split_ifs with hz
    · norm_num
    · have hpos : 0 < weightSum l := lt_of_le_of_ne hs.1 (Ne.symm hz)
      constructor
      · exact div_nonneg hs.2.1 (le_of_lt hpos)
      · rw [div_le_iff₀ hpos]
        linarith [hs.2.2]
  have hrb := round1_mem _ hraw.1 hraw.2
  have hclamp : totalScore subs
      = round1 (if weightSum l = 0 then 0 else weightedSum l / weightSum l) := by
    unfold totalScore
    rw [← hl]
    show (round1 (if weightSum l = 0 then 0 else weightedSum l / weightSum l) ⊔ 0) ⊓ 100
      = round1 (if weightSum l = 0 then 0 else weightedSum l / weightSum l)
    rw [max_eq_left hrb.1, min_eq_left hrb.2]
  refine ⟨by norm_num [configuredWeights], ?_, ?_, hclamp, ?_⟩
  · rw [hclamp]; exact hrb.1
  · rw [hclamp]; exact hrb.2
  · exact ⟨round (10 * (if weightSum l = 0 then 0 else weightedSum l / weightSum l)),
      by rw [hclamp]; rfl⟩

/-- Witness for C2 on a concrete input: five applicable factors, one
inapplicable. -/
theorem totalScore_renormalized_witness :
    (∀ o ∈ ([some 50, some 50, none, some 0, some 100, some 20] : List (Option ℚ)),
      ∀ q, o = some q → 0 ≤ q ∧ q ≤ 100)
    ∧ 0 ≤ totalScore [some 50, some 50, none, some 0, some 100, some 20]
    ∧ totalScore [some 50, some 50, none, some 0, some 100, some 20] ≤ 100 := by
  have h : ∀ o ∈ ([some 50, some 50, none, some 0, some 100, some 20] : List (Option ℚ)),
      ∀ q, o = some q → 0 ≤ q ∧ q ≤ 100 := by
    intro o ho q hq
    simp only [List.mem_cons, List.not_mem_nil, or_false] at ho
    rcases ho with h1 | h1 | h1 | h1 | h1 | h1 <;> rw [h1] at hq <;>
      first
        | (cases hq; constructor <;> norm_num)
        | (exact absurd hq (by simp))
  have ht := totalScore_renormalized [some 50, some 50, none, some 0, some 100, some 20] h
  exact ⟨h, ht.2.1, ht.2.2.1⟩

/-- Application status, from `frontend/types/index.ts` (`KYCApplication.status`). -/
inductive Status where
  | pending
  | processing
  | approved
  | review
  | rejected
deriving DecidableEq, Repr

/-- Processing stage, from `frontend/types/index.ts`
(`KYCApplication.processing_stage`): nine values including `unknown`. -/
inductive Stage where
  | pending
  | uploading
  | ocr
  | ner
  | llm
  | risk_scoring
  | workflow
  | completed
  | unknown
deriving DecidableEq, Repr

/-- A document, reduced to the field the pipeline transitions consult:
whether OCR has completed (successfully or with a recorded per-document
failure) for it (spec §4.1, `ocr → ner` transition). -/
structure Doc where
  ocrDone : Bool
deriving DecidableEq, Repr

/-- A risk score record: numeric score and decision bucket
(`frontend/types/index.ts`, `RiskScore`). -/
structure RiskScoreRec where
  score : ℚ
  decision : Decision
deriving DecidableEq, Repr

/-- An audit log entry: acting user (`none` for system actions) and action
label (`frontend/types/index.ts`, `AuditLog`; spec §3). -/
structure AuditEntry where
  userId : Option Nat
  action : String
deriving DecidableEq, Repr

/-- Modelled from the spec: the persisted per-application state the core
operates on (spec §3) — status, processing stage, documents, at most one
risk score, audit log, and whether the external workflow system has been
notified for this application (spec §4.3). -/
structure App where
  status : Status
  stage : Stage
  documents : List Doc
  riskScore : Option RiskScoreRec
  audit : List AuditEntry
  notified : Bool
deriving DecidableEq, Repr

/-- A freshly created application: pending, no documents, no score, empty
audit trail. -/
def mkApp : App :=
  { status := .pending, stage := .pending, documents := [],
    riskScore := none, audit := [], notified := false }

/-- Attaching an uploaded document to an application. -/
def uploadDoc (d : Doc) (a : App) : App :=
  { a with documents := d :: a.documents }

/-- Modelled from the spec: one `advance(applicationId)` step of the
Pipeline Orchestrator (spec §4.1, backend code missing from the snapshot).
With zero documents the pipeline stalls in `pending` and must not
auto-advance; `ocr → ner` requires OCR completed for every attached
document; terminal and `unknown` stages are no-ops; the scoring and
dispatch steps are modelled separately (`runScoring`, `dispatch`). -/
def advance (a : App) : App :=
  match a.stage with
  | .pending =>
    if a.documents.isEmpty then a
    else { a with stage := .uploading, status := .processing }
  | .uploading => { a with stage := .ocr }
  | .ocr =>
    if a.documents.all (fun d => d.ocrDone) then { a with stage := .ner } else a
  | .ner => { a with stage := .llm }
  | .llm => { a with stage := .risk_scoring }
  | .risk_scoring => a
  | .workflow => a
  | .completed => a
  | .unknown => a

/-- Modelled from the spec: the `risk_scoring → workflow` transition — the
Scoring Engine produces score `q`, the RiskScore record is created once
(immutable afterwards), and the stage moves to `workflow` (spec §4.1,
§4.2). -/
def runScoring (q : ℚ) (a : App) : App :=
  if a.stage = .risk_scoring ∧ a.riskScore = none then
    { a with riskScore := some { score := q, decision := decisionFor q },
             stage := .workflow }
  else a

/-- Modelled from the spec: `dispatch(applicationId, riskScore)` of the
Decision Dispatcher (spec §4.3) — with no external hook configured,
`approved`/`rejected` set the matching terminal status immediately and
write an AuditLog entry; `review` notifies the external workflow system,
which later finalizes through the callback endpoints.  Without a
RiskScore there is nothing to dispatch. -/
def dispatch (a : App) : App :=
  match a.riskScore with
  | none => a
  | some r =>
    match r.decision with
    | .approved =>
      { a with status := .approved, stage := .completed,
               audit := { userId := none, action := "auto_approve" } :: a.audit }
    | .rejected =>
      { a with status := .rejected, stage := .completed,
               audit := { userId := none, action := "auto_reject" } :: a.audit }
    | .review =>
      { a with status := .review, stage := .completed, notified := true }

/-- Result of a finalize or admin decision call (spec §4.3, §7): success,
explicit duplicate marker for an idempotent no-op, Conflict error,
Unauthorized error. -/
inductive FinResult where
  | success
  | duplicateNoop
  | errConflict
  | errUnauthorized
deriving DecidableEq, Repr

/-- Modelled from the spec: the internal `finalizeApprove` callback
endpoint (`POST /api/admin/internal/applications/id/approve`,
documented in the workflow-auth guide; backend code missing from the
snapshot).  Requires the pre-shared `X-API-Key` credential; idempotent on
an already-approved application (explicit duplicate marker, no state
change); Conflict on an already-rejected one; otherwise finalizes to
`approved` and writes one AuditLog entry. -/
def finalizeApprove (configuredKey : String) (providedKey : Option String)
    (a : App) : App × FinResult :=
  if providedKey ≠ some configuredKey then (a, .errUnauthorized)
  else
    match a.status with
    | .approved => (a, .duplicateNoop)
    | .rejected => (a, .errConflict)
    | _ =>
      ({ a with status := .approved, stage := .completed,
                audit := { userId := none, action := "finalize_approve" } :: a.audit },
       .success)

/-- Modelled from the spec: the internal `finalizeReject` callback
endpoint, symmetric to `finalizeApprove` (spec §4.3). -/
def finalizeReject (configuredKey : String) (providedKey : Option String)
    (reason : Option String) (a : App) : App × FinResult :=
  if providedKey ≠ some configuredKey then (a, .errUnauthorized)
  else
    match a.status with
    | .rejected => (a, .duplicateNoop)
    | .approved => (a, .errConflict)
    | _ =>
      ({ a with status := .rejected, stage := .completed,
                audit := { userId := none, action := "finalize_reject" } :: a.audit },
       .success)

/-- Modelled from the spec: manual admin approve override through the
session-authenticated admin surface — same idempotency and conflict rules
as the callback, additionally recorded in the AuditLog with the acting
admin identity (spec §4.3). -/
def adminApprove (adminId : Nat) (a : App) : App × FinResult :=
  match a.status with
  | .approved => (a, .duplicateNoop)
  | .rejected => (a, .errConflict)
  | _ =>
    ({ a with status := .approved, stage := .completed,
              audit := { userId := some adminId, action := "admin_override_approve" } :: a.audit },
     .success)

/-- Modelled from the spec: manual admin reject override, symmetric to
`adminApprove`. -/
def adminReject (adminId : Nat) (a : App) : App × FinResult :=
  match a.status with
  | .rejected => (a, .duplicateNoop)
  | .approved => (a, .errConflict)
  | _ =>
    ({ a with status := .rejected, stage := .completed,
              audit := { userId := some adminId, action := "admin_override_reject" } :: a.audit },
     .success)

/-- C3: finalizeApprove is idempotent — on an application already in
terminal status approved, a call with the correct key is a no-op that
returns the explicit duplicate marker, leaves the application state (and
hence its audit log) unchanged. -/
theorem finalizeApprove_idempotent (k : String) (a : App)
    (h : a.status = .approved) :
    finalizeApprove k (some k) a = (a, .duplicateNoop) := by
  unfold finalizeApprove
  rw [h]
  simp

/-- Witness for C3: a concrete already-approved application. -/
theorem finalizeApprove_idempotent_witness :
    ({ mkApp with status := .approved } : App).status = .approved
    ∧ finalizeApprove "k1" (some "k1") { mkApp with status := .approved }
        = ({ mkApp with status := .approved }, .duplicateNoop) :=
  ⟨rfl, finalizeApprove_idempotent "k1" { mkApp with status := .approved } rfl⟩

/-- C4: a conflicting finalize is rejected atomically — finalizeReject on
an already-approved application returns a Conflict error and leaves the
state unchanged, and symmetrically finalizeApprove on an already-rejected
application. -/
theorem finalize_conflict (k : String) (reason : Option String) (a b : App)
    (ha : a.status = .approved) (hb : b.status = .rejected) :
    finalizeReject k (some k) reason a = (a, .errConflict)
    ∧ finalizeApprove k (some k) b = (b, .errConflict) := by
  constructor
  · unfold finalizeReject
    rw [ha]
    simp
  · unfold finalizeApprove
    rw [hb]
    simp

/-- Witness for C4: concrete approved and rejected applications. -/
theorem finalize_conflict_witness :
    ({ mkApp with status := .approved } : App).status = .approved
    ∧ ({ mkApp with status := .rejected } : App).status = .rejected
    ∧ finalizeReject "k1" (some "k1") none { mkApp with status := .approved }
        = ({ mkApp with status := .approved }, .errConflict)
    ∧ finalizeApprove "k1" (some "k1") { mkApp with status := .rejected }
        = ({ mkApp with status := .rejected }, .errConflict) := by
  have h := finalize_conflict "k1" none { mkApp with status := .approved }
    { mkApp with status := .rejected } rfl rfl
  exact ⟨rfl, rfl, h.1, h.2⟩

/-- C8: a finalize call presenting a wrong or missing pre-shared key fails
with an Unauthorized error and performs no state change, for both
finalizeApprove and finalizeReject. -/
theorem finalize_unauthorized (k : String) (pk : Option String)
    (reason : Option String) (a : App) (h : pk ≠ some k) :
    finalizeApprove k pk a = (a, .errUnauthorized)
    ∧ finalizeReject k pk reason a = (a, .errUnauthorized) := by
  constructor
  · unfold finalizeApprove
    rw [if_pos h]
  · unfold finalizeReject
    rw [if_pos h]

/-- Witness for C8: a missing key and a wrong key on concrete
applications. -/
theorem finalize_unauthorized_witness :
    (none ≠ some "k1")
    ∧ finalizeApprove "k1" none mkApp = (mkApp, .errUnauthorized)
    ∧ finalizeReject "k1" (some "wrong") none mkApp = (mkApp, .errUnauthorized) := by
  have h1 := finalize_unauthorized "k1" none none mkApp (by simp)
  have h2 := finalize_unauthorized "k1" (some "wrong") none mkApp (by simp)
  exact ⟨by simp, h1.1, h2.2⟩

/-- An application with zero documents in stage `pending` is a fixed point
of `advance`. -/
theorem advance_fixed_of_empty (a : App) (hd : a.documents = [])
    (hs : a.stage = .pending) : advance a = a := by
  unfold advance
  rw [hs, hd]
  simp

/-- C5: empty-application stall invariant — with zero attached documents
the processing stage remains `pending` after any finite number of
`advance` invocations, and `advance` never errors (it is a total
function on application states). -/
theorem empty_application_stall (a : App) (n : ℕ) (hd : a.documents = [])
    (hs : a.stage = .pending) :
    advance^[n] a = a ∧ (advance^[n] a).stage = .pending := by
  have hfix : advance^[n] a = a :=
    Function.iterate_fixed (advance_fixed_of_empty a hd hs) n
  exact ⟨hfix, by rw [hfix, hs]⟩

/-- Witness for C5: a fresh application, advanced five times. -/
theorem empty_application_stall_witness :
    mkApp.documents = [] ∧ mkApp.stage = .pending
    ∧ advance^[5] mkApp = mkApp ∧ (advance^[5] mkApp).stage = .pending := by
  have h := empty_application_stall mkApp 5 rfl rfl
  exact ⟨rfl, rfl, h.1, h.2⟩

/-- Modelled from the spec: one run of the corrected decision workflow of
the external automation system (spec §9; the workflow JSON itself is not
in the snapshot — the fix guides describe it: the `Log Result` node is
wired directly from the webhook so that every decision, including
`review`, reaches `Respond to Webhook`).  The run records the executed
nodes in order and whether the webhook was responded to. -/
def runCorrectedWorkflow (d : Decision) : List String × Bool :=
  let approveBranch := if d = .approved then ["Approve Action"] else []
  let rejectBranch := if d = .rejected then ["Reject Action"] else []
  ("Webhook" :: approveBranch ++ rejectBranch ++ ["Log Result", "Respond to Webhook"],
   true)

/-- C6: the Decision Dispatcher handles all three decision outcomes
exhaustively — for every decision value, dispatching an application that
carries a RiskScore with that decision reaches the terminal `completed`
stage with either a terminal status or the external notification flag
set, and the corrected workflow run responds to the webhook (the
completion signal), with `Respond to Webhook` among the executed nodes;
no decision value falls through unmatched. -/
theorem dispatcher_exhaustive (a : App) (r : RiskScoreRec)
    (h : a.riskScore = some r) :
    (dispatch a).stage = .completed
    ∧ ((dispatch a).status = .approved ∨ (dispatch a).status = .rejected
        ∨ (dispatch a).notified = true)
    ∧ (runCorrectedWorkflow r.decision).2 = true
    ∧ "Respond to Webhook" ∈ (runCorrectedWorkflow r.decision).1 := by
  unfold dispatch
  rw [h]
  rcases r with ⟨q, d⟩
  cases d
  · exact ⟨rfl, Or.inl rfl, rfl, by simp [runCorrectedWorkflow]⟩
  · exact ⟨rfl, Or.inr (Or.inr rfl), rfl, by simp [runCorrectedWorkflow]⟩
  · exact ⟨rfl, Or.inr (Or.inl rfl), rfl, by simp [runCorrectedWorkflow]⟩

/-- Witness for C6: a concrete application scored into the review bucket
(the historically dropped case). -/
theorem dispatcher_exhaustive_witness :
    (runScoring 45 { mkApp with stage := .risk_scoring }).riskScore
      = some { score := 45, decision := .review }
    ∧ (dispatch (runScoring 45 { mkApp with stage := .risk_scoring })).stage = .completed
    ∧ ((dispatch (runScoring 45 { mkApp with stage := .risk_scoring })).status = .approved
        ∨ (dispatch (runScoring 45 { mkApp with stage := .risk_scoring })).status = .rejected
        ∨ (dispatch (runScoring 45 { mkApp with stage := .risk_scoring })).notified = true) := by
  have hs : (runScoring 45 { mkApp with stage := .risk_scoring }).riskScore
      = some { score := 45, decision := .review } := by
    unfold runScoring
    norm_num [mkApp, decisionFor]
  have h := dispatcher_exhaustive (runScoring 45 { mkApp with stage := .risk_scoring })
    { score := 45, decision := .review } hs
  exact ⟨hs, h.1, h.2.1⟩

/-- An explicit admin override recorded in the audit log: an entry carrying
an acting-admin identity and an override action label (spec §3, §4.3). -/
def hasOverride (l : List AuditEntry) : Bool :=
  l.any fun e =>
    e.userId.isSome
      && (e.action = "admin_override_approve" || e.action = "admin_override_reject")

/-- Modelled from the spec: one atomic operation of the core on a single
application state (spec §2 data flow, §4): document upload, pipeline
advance, scoring, dispatch, external finalize callback (which the
automation system issues only after having been notified), and manual
admin override. -/
inductive Step : App → App → Prop where
  | upload (d : Doc) (a : App) : Step a (uploadDoc d a)
  | adv (a : App) : Step a (advance a)
  | scored (q : ℚ) (a : App) : Step a (runScoring q a)
  | disp (a : App) : Step a (dispatch a)
  | finApprove (k : String) (pk : Option String) (a : App) :
      a.notified = true → Step a (finalizeApprove k pk a).1
  | finReject (k : String) (pk : Option String) (reason : Option String) (a : App) :
      a.notified = true → Step a (finalizeReject k pk reason a).1
  | adminApp (uid : Nat) (a : App) : Step a (adminApprove uid a).1
  | adminRej (uid : Nat) (a : App) : Step a (adminReject uid a).1

/-- The application states reachable from a freshly created application. -/
inductive Reachable : App → Prop where
  | init : Reachable mkApp
  | step {a b : App} : Reachable a → Step a b → Reachable b

/-- The inductive invariant: a terminal status is backed by a RiskScore or
an explicit admin override, and the external system is only ever notified
after the RiskScore exists. -/
def Inv (a : App) : Prop :=
  ((a.status = .approved ∨ a.status = .rejected) →
    a.riskScore.isSome = true ∨ hasOverride a.audit = true)
  ∧ (a.notified = true → a.riskScore.isSome = true)

/-- `uploadDoc` preserves the invariant. -/
theorem inv_uploadDoc (d : Doc) (a : App) (h : Inv a) : Inv (uploadDoc d a) := by
  unfold Inv at h ⊢
  unfold uploadDoc
  simpa using h

/-- `advance` preserves the invariant: it never sets a terminal status and
touches neither the RiskScore, the audit log nor the notification flag. -/
theorem inv_advance (a : App) (h : Inv a) : Inv (advance a) := by
  unfold Inv at h ⊢
  unfold advance
  rcases a with ⟨st, sg, docs, rs, au, nt⟩
  cases sg <;> simp only at h ⊢ <;>
    first
      | exact h
      | (split_ifs <;> simp_all)

/-- `runScoring` preserves the invariant: it only ever adds a RiskScore. -/
theorem inv_runScoring (q : ℚ) (a : App) (h : Inv a) : Inv (runScoring q a) := by
  unfold Inv at h ⊢
  unfold runScoring
  split_ifs <;> simp_all

/-- `dispatch` preserves the invariant: it sets a terminal status or the
notification flag only in branches where the RiskScore exists. -/
theorem inv_dispatch (a : App) (h : Inv a) : Inv (dispatch a) := by
  unfold Inv at h ⊢
  unfold dispatch
  rcases hrs : a.riskScore with _ | r
  · simpa [hrs] using h
  · rcases r with ⟨q, d⟩
    cases d <;> simp [hrs]

/-- `finalizeApprove` issued after notification preserves the invariant:
the notification hypothesis yields the RiskScore through the invariant. -/
theorem inv_finalizeApprove (k : String) (pk : Option String) (a : App)
    (h : Inv a) (hn : a.notified = true) : Inv (finalizeApprove k pk a).1 := by
  have hrs : a.riskScore.isSome = true := h.2 hn
  unfold Inv finalizeApprove
  split_ifs
  · exact h
  · rcases hst : a.status <;> simp [hst, hrs, hn]


/-- `finalizeReject` issued after notification preserves the invariant. -/
theorem inv_finalizeReject (k : String) (pk : Option String)
    (reason : Option String) (a : App) (h : Inv a) (hn : a.notified = true) :
    Inv (finalizeReject k pk reason a).1 := by
  have hrs : a.riskScore.isSome = true := h.2 hn
  unfold Inv finalizeReject
  split_ifs
  · exact h
  · rcases hst : a.status <;> simp [hst, hrs, hn]

/-- `adminApprove` preserves the invariant: its success branch records an
explicit admin override in the audit log. -/
theorem inv_adminApprove (uid : Nat) (a : App) (h : Inv a) :
    Inv (adminApprove uid a).1 := by
  unfold Inv at h ⊢
  unfold adminApprove
  rcases hst : a.status <;> simp [hst, hasOverride] at h ⊢ <;> simp_all [hasOverride]

/-- `adminReject` preserves the invariant. -/
theorem inv_adminReject (uid : Nat) (a : App) (h : Inv a) :
    Inv (adminReject uid a).1 := by
  unfold Inv at h ⊢
  unfold adminReject
  rcases hst : a.status <;> simp [hst, hasOverride] at h ⊢ <;> simp_all [hasOverride]

/-- Every reachable application state satisfies the inductive invariant. -/
theorem reachable_inv (a : App) (h : Reachable a) : Inv a := by
  induction h with
  | init =>
    unfold Inv
    decide
  | step _ hs ih =>
    cases hs
    all_goals first
      | exact inv_uploadDoc _ _ ih
      | exact inv_advance _ ih
      | exact inv_runScoring _ _ ih
      | exact inv_dispatch _ ih
      | (rename_i hn; exact inv_finalizeApprove _ _ _ ih hn)
      | (rename_i hn; exact inv_finalizeReject _ _ _ _ ih hn)
      | exact inv_adminApprove _ _ ih
      | exact inv_adminReject _ _ ih

/-- C7: status-derivation invariant — in every reachable application
state, the status is approved or rejected only if a RiskScore exists for
the application or an explicit admin override is recorded in the audit
log; every operation (upload, advance, scoring, dispatch, finalize,
admin override) preserves this. -/
theorem status_derivation_invariant (a : App) (h : Reachable a)
    (ht : a.status = .approved ∨ a.status = .rejected) :
    a.riskScore.isSome = true ∨ hasOverride a.audit = true :=
  (reachable_inv a h).1 ht

/-- Witness for C7: a fresh application terminally approved by an admin
override is reachable, and the override is what backs its status. -/
theorem status_derivation_invariant_witness :
    Reachable (adminApprove 7 mkApp).1
    ∧ ((adminApprove 7 mkApp).1.status = .approved
        ∨ (adminApprove 7 mkApp).1.status = .rejected)
    ∧ ((adminApprove 7 mkApp).1.riskScore.isSome = true
        ∨ hasOverride (adminApprove 7 mkApp).1.audit = true) := by
  have hre : Reachable (adminApprove 7 mkApp).1 :=
    Reachable.step Reachable.init (Step.adminApp 7 mkApp)
  have hst : (adminApprove 7 mkApp).1.status = .approved := rfl
  exact ⟨hre, Or.inl hst,
    status_derivation_invariant (adminApprove 7 mkApp).1 hre (Or.inl hst)⟩

/-- The string key of a processing stage, as stored in
`KYCApplication.processing_stage` (`frontend/types/index.ts`). -/
def stageKey : Stage → String
  | .pending => "pending"
  | .uploading => "uploading"
  | .ocr => "ocr"
  | .ner => "ner"
  | .llm => "llm"
  | .risk_scoring => "risk_scoring"
  | .workflow => "workflow"
  | .completed => "completed"
  | .unknown => "unknown"

/-- The stage table of `getProcessingProgress`
(`frontend/app/(dashboard)/dashboard/applications/[id]/page.tsx`): key and
fixed percentage for the eight listed stages. -/
def progressStages : List (String × ℕ) :=
  [("pending", 0), ("uploading", 10), ("ocr", 30), ("ner", 50),
   ("llm", 70), ("risk_scoring", 85), ("workflow", 95), ("completed", 100)]

/-- `getProcessingProgress` from the application detail page: look the
current stage up in the table by `findIndex` and return its percentage,
or 0 when the lookup yields no index (`currentStageIndex >= 0 ? ... : 0`
in the source). -/
def getProcessingProgress (s : Stage) : ℕ :=
  match progressStages.findIdx? (fun p => p.1 = stageKey s) with
  | some i => (progressStages.getD i ("", 0)).2
  | none => 0

/-- C9: `getProcessingProgress` is total over all nine processing stage
values — the eight listed stages map to their fixed percentages and the
unlisted `unknown` stage maps to 0 rather than failing. -/
theorem getProcessingProgress_total :
    getProcessingProgress .pending = 0
    ∧ getProcessingProgress .uploading = 10
    ∧ getProcessingProgress .ocr = 30
    ∧ getProcessingProgress .ner = 50
    ∧ getProcessingProgress .llm = 70
    ∧ getProcessingProgress .risk_scoring = 85
    ∧ getProcessingProgress .workflow = 95
    ∧ getProcessingProgress .completed = 100
    ∧ getProcessingProgress .unknown = 0 := by
  refine ⟨?_, ?_, ?_, ?_, ?_, ?_, ?_, ?_, ?_⟩ <;> rfl

/-- The fill percentage of the `Progress` UI component:
`Math.min(Math.max((value / max) * 100, 0), 100)` with `max` defaulting
to 100 (the unnamed frontend component source). -/
def progressPercentage (value mx : ℚ) : ℚ :=
  min (max ((value / mx) * 100) 0) 100

/-- C10: for every value and every positive max, the rendered fill
percentage is `(value / max) * 100` clamped into [0,100]; a value
exceeding max renders exactly 100 and a negative value exactly 0. -/
theorem progressPercentage_clamped (value mx : ℚ) (h : 0 < mx) :
    0 ≤ progressPercentage value mx
    ∧ progressPercentage value mx ≤ 100
    ∧ (mx < value → progressPercentage value mx = 100)
    ∧ (value < 0 → progressPercentage value mx = 0) := by
  unfold progressPercentage
  refine ⟨le_min (le_max_right _ _) (by norm_num), min_le_right _ _, ?_, ?_⟩
  · intro hv
    have h1 : (1 : ℚ) < value / mx := (one_lt_div h).mpr hv
    have h2 : (100 : ℚ) ≤ (value / mx) * 100 := by nlinarith
    rw [max_eq_left (le_trans (by norm_num) h2)]
    exact min_eq_right h2
  · intro hv
    have h1 : value / mx < 0 := div_neg_of_neg_of_pos hv h
    have h2 : (value / mx) * 100 ≤ 0 := by nlinarith
    rw [max_eq_right h2]
    norm_num

/-- Witness for C10 at max 100 with an overshooting and an undershooting
value. -/
theorem progressPercentage_clamped_witness :
    (0:ℚ) < 100
    ∧ progressPercentage 250 100 = 100
    ∧ progressPercentage (-3) 100 = 0 := by
  have hover := (progressPercentage_clamped 250 100 (by norm_num)).2.2.1 (by norm_num)
  have hunder := (progressPercentage_clamped (-3) 100 (by norm_num)).2.2.2 (by norm_num)
  exact ⟨by norm_num, hover, hunder⟩

end AIKYC
